import Mathlib

/-!
# Music-Notes.c: the two tone players

A shallow embedding of `play_sound` and `play_freq` from
`UBMP420-Starter-2-Music-Notes.X/Music-Notes.c`.

The target is a PIC16F1459 compiled with XC8: `unsigned int` is 16 bits wide,
`int` is 16 bits and `long` is 32 bits.  Machine values are natural numbers,
and every place where the C code converts to `unsigned int` is an explicit
reduction modulo `65536`.

The only observable effect of the two routines is on the beeper pin.  The
embedding keeps the pin level and a trace of what the routine did: one event
per write of the pin and one event per iteration of the period delay loop.
-/

namespace MusicNotes

/-! ## Machine integers -/

/-- Number of values of the 16-bit `unsigned int` of the target. -/
def UINT_MOD : Nat := 65536

/-- Conversion of a non-negative value to `unsigned int`. -/
def to_uint (n : Nat) : Nat := n % UINT_MOD

/-- Conversion of a (possibly negative) `long` value to `unsigned int`. -/
def long_to_uint (z : Int) : Nat := (z % 65536).toNat

/-! ## The beeper pin and the trace of a run -/

/-- What a tone player does, one event at a time. -/
inductive Event where
  /-- The statement `BEEPER = !BEEPER;` wrote `level` to the pin. -/
  | toggle (level : Bool)
  /-- One iteration of `for(unsigned int i = period; i != 0; i--);`. -/
  | tick
  deriving DecidableEq, Repr

/-- State of the board as far as the tone players can see or change it. -/
structure Board where
  /-- Level of the beeper pin. -/
  BEEPER : Bool
  /-- Events so far, oldest first. -/
  trace : List Event
  deriving DecidableEq, Repr

/-- Recogniser of pin writes. -/
def Event.isToggle : Event → Bool
  | Event.toggle _ => true
  | Event.tick => false

/-- Recogniser of delay-loop iterations. -/
def Event.isTick : Event → Bool
  | Event.toggle _ => false
  | Event.tick => true

/-- Number of pin toggles in a trace. -/
def toggle_count (t : List Event) : Nat := t.countP Event.isToggle

/-- Number of delay-loop iterations in a trace. -/
def tick_count (t : List Event) : Nat := t.countP Event.isTick

/-- The statement `BEEPER = !BEEPER;`. -/
def toggle_beeper (b : Board) : Board :=
  { BEEPER := !b.BEEPER, trace := b.trace ++ [Event.toggle (!b.BEEPER)] }

/-- The statement `for(unsigned int i = period; i != 0; i--);`: the argument is
the current value of `i`; the loop stops at `i == 0` and otherwise runs its
(empty) body once and decrements `i`. -/
def delay_loop : Nat → Board → Board
  | 0, b => b
  | i + 1, b => delay_loop i { b with trace := b.trace ++ [Event.tick] }

/-! ## play_sound -/

/-- The function `play_sound(period, cycles)`:
`for(cycles; cycles != 0; cycles--) { BEEPER = !BEEPER; <period delay> }`. -/
def play_sound (period : Nat) : Nat → Board → Board
  | 0, b => b
  | cycles + 1, b => play_sound period cycles (delay_loop period (toggle_beeper b))

/-! ## play_freq -/

/-- Line 56, `unsigned int period = 57600 / (frequency / 8) - 2;`.
`frequency / 8` is an `unsigned int` division.  The constant `57600` does not
fit the 16-bit `int`, so it is a `long`; the division and the subtraction are
done in `long` and the difference is converted to `unsigned int` by the
initialisation.  A zero divisor has no defined result. -/
def play_freq_period (frequency : Nat) : Option Nat :=
  if frequency / 8 = 0 then none
  else some (long_to_uint (((57600 / (frequency / 8) : Nat) : Int) - 2))

/-- Line 57, `unsigned int cycles = (duration * 10) / (50000 / frequency) * 10;`.
`duration * 10` is an `unsigned int` product and wraps modulo `65536`.  The
constant `50000` is a `long`, so both divisions and the final product are done
in `long`; the product is converted to `unsigned int` by the initialisation.
A zero divisor, in either division, has no defined result. -/
def play_freq_cycles (frequency duration : Nat) : Option Nat :=
  if frequency = 0 then none
  else if 50000 / frequency = 0 then none
  else some (to_uint (to_uint (duration * 10) / (50000 / frequency) * 10))

/-- The loop of `play_freq` (lines 58 to 62), a textual copy of the loop of
`play_sound` inside `play_freq`, running on the local `period` and `cycles`. -/
def play_freq_loop (period : Nat) : Nat → Board → Board
  | 0, b => b
  | cycles + 1, b => play_freq_loop period cycles (delay_loop period (toggle_beeper b))

/-- The function `play_freq(frequency, duration)`: the two initialisations, in
order, then the loop.  The result is `none` when an initialisation divides by
zero. -/
def play_freq (frequency duration : Nat) (b : Board) : Option Board :=
  match play_freq_period frequency with
  | none => none
  | some period =>
    match play_freq_cycles frequency duration with
    | none => none
    | some cycles => some (play_freq_loop period cycles b)

/-- The values of the operations of lines 56 and 57 before any conversion to
`unsigned int`, in this order: `frequency / 8`, `57600 / (frequency / 8)`, that
quotient minus `2`, `duration * 10`, `50000 / frequency`,
`(duration * 10) / (50000 / frequency)` and that quotient times `10`.  Each
operation takes the operands the machine holds at that point. -/
def play_freq_steps (frequency duration : Nat) : Option (List Int) :=
  if frequency / 8 = 0 then none
  else if 50000 / frequency = 0 then none
  else some
    [ ((frequency / 8 : Nat) : Int),
      ((57600 / (frequency / 8) : Nat) : Int),
      ((57600 / (frequency / 8) : Nat) : Int) - 2,
      ((duration * 10 : Nat) : Int),
      ((50000 / frequency : Nat) : Int),
      ((to_uint (duration * 10) / (50000 / frequency) : Nat) : Int),
      ((to_uint (duration * 10) / (50000 / frequency) * 10 : Nat) : Int) ]

/-- The events a run added to the trace: what `after` holds beyond `before`. -/
def emitted (before after : Board) : List Event :=
  after.trace.drop before.trace.length

/-! ## The formulas of the specification -/

/-- The period formula as the specification writes it,
`period = 57600 / (frequency / 8) - 2`, over unbounded integers with
truncating division. -/
def spec_period (frequency : Nat) : Int :=
  Int.tdiv 57600 (Int.tdiv (frequency : Int) 8) - 2

/-- The cycles formula as the specification writes it,
`cycles = (duration * 10) / (50000 / frequency) * 10`, over unbounded integers
with truncating division. -/
def spec_cycles (frequency duration : Nat) : Int :=
  Int.tdiv ((duration : Int) * 10) (Int.tdiv 50000 (frequency : Int)) * 10

/-- The trace the specification describes for a tone: for each of the `cycles`
half periods one toggle of the pin followed by `period` delay iterations. -/
def tone_trace (period : Nat) : Nat → Bool → List Event
  | 0, _ => []
  | cycles + 1, level =>
    Event.toggle (!level) :: (List.replicate period Event.tick
      ++ tone_trace period cycles (!level))

/-- Number of times the level of the pin changes along a trace, for a pin
that is at `level` before the first event.  A write of the level the pin
already has changes nothing and is not counted; a delay iteration leaves the
pin alone. -/
def pin_changes : Bool → List Event → Nat
  | _, [] => 0
  | level, Event.tick :: t => pin_changes level t
  | level, Event.toggle l :: t => (if l = level then 0 else 1) + pin_changes l t

/-- Level of the pin after a trace, for a pin that is at `level` before the
first event: the level of the last write, if any. -/
def pin_after : Bool → List Event → Bool
  | level, [] => level
  | level, Event.tick :: t => pin_after level t
  | _, Event.toggle l :: t => pin_after l t

/-! ## Lemmas on the loops -/

theorem delay_loop_BEEPER (i : Nat) (b : Board) :
    (delay_loop i b).BEEPER = b.BEEPER := by
  induction i generalizing b with
  | zero => rfl
  | succ i ih => simp [delay_loop, ih]

theorem delay_loop_trace (i : Nat) (b : Board) :
    (delay_loop i b).trace = b.trace ++ List.replicate i Event.tick := by
  induction i generalizing b with
  | zero => simp [delay_loop]
  | succ i ih => simp [delay_loop, ih, List.replicate_succ]

theorem play_sound_trace (period cycles : Nat) (b : Board) :
    (play_sound period cycles b).trace = b.trace ++ tone_trace period cycles b.BEEPER := by
  induction cycles generalizing b with
  | zero => simp [play_sound, tone_trace]
  | succ c ih =>
    simp [play_sound, tone_trace, ih, delay_loop_trace, delay_loop_BEEPER, toggle_beeper]

theorem play_sound_BEEPER (period cycles : Nat) (b : Board) :
    (play_sound period cycles b).BEEPER = (if cycles % 2 = 0 then b.BEEPER else !b.BEEPER) := by
  induction cycles generalizing b with
  | zero => simp [play_sound]
  | succ c ih =>
    simp only [play_sound, ih, delay_loop_BEEPER, toggle_beeper]
    rcases Nat.mod_two_eq_zero_or_one c with h | h
    · have h2 : (c + 1) % 2 = 1 := by omega
      simp [h, h2]
    · have h2 : (c + 1) % 2 = 0 := by omega
      simp [h, h2]

theorem toggle_count_append (s t : List Event) :
    toggle_count (s ++ t) = toggle_count s + toggle_count t := by
  simp [toggle_count, List.countP_append]

theorem tick_count_append (s t : List Event) :
    tick_count (s ++ t) = tick_count s + tick_count t := by
  simp [tick_count, List.countP_append]

theorem toggle_count_replicate_tick (n : Nat) :
    toggle_count (List.replicate n Event.tick) = 0 := by
  induction n with
  | zero => rfl
  | succ n ih =>
    simp only [List.replicate_succ, toggle_count, List.countP_cons] at ih ⊢
    simp [ih, Event.isToggle]

theorem tick_count_replicate_tick (n : Nat) :
    tick_count (List.replicate n Event.tick) = n := by
  induction n with
  | zero => rfl
  | succ n ih =>
    simp only [List.replicate_succ, tick_count, List.countP_cons] at ih ⊢
    simp [ih, Event.isTick]

theorem toggle_count_tone_trace (period cycles : Nat) (level : Bool) :
    toggle_count (tone_trace period cycles level) = cycles := by
  induction cycles generalizing level with
  | zero => rfl
  | succ c ih =>
    have h := ih (!level)
    simp only [tone_trace]
    rw [← List.singleton_append, toggle_count_append, toggle_count_append,
      toggle_count_replicate_tick, h]
    simp [toggle_count, Event.isToggle]
    omega

theorem tick_count_tone_trace (period cycles : Nat) (level : Bool) :
    tick_count (tone_trace period cycles level) = period * cycles := by
  induction cycles generalizing level with
  | zero => rfl
  | succ c ih =>
    have h := ih (!level)
    simp only [tone_trace]
    rw [← List.singleton_append, tick_count_append, tick_count_append,
      tick_count_replicate_tick, h]
    simp [tick_count, Event.isTick, Nat.mul_succ]
    omega

theorem tone_trace_zero_period (cycles : Nat) (level : Bool) :
    tick_count (tone_trace 0 cycles level) = 0 := by
  rw [tick_count_tone_trace]; simp

theorem play_freq_loop_eq_play_sound (period cycles : Nat) (b : Board) :
    play_freq_loop period cycles b = play_sound period cycles b := by
  induction cycles generalizing b with
  | zero => rfl
  | succ c ih => simp [play_freq_loop, play_sound, ih]

theorem emitted_play_sound (period cycles : Nat) (b : Board) :
    emitted b (play_sound period cycles b) = tone_trace period cycles b.BEEPER := by
  simp [emitted, play_sound_trace]

theorem pin_changes_replicate_tick_append (level : Bool) (n : Nat) (t : List Event) :
    pin_changes level (List.replicate n Event.tick ++ t) = pin_changes level t := by
  induction n with
  | zero => rfl
  | succ n ih => simpa [List.replicate_succ, pin_changes] using ih

theorem pin_after_replicate_tick_append (level : Bool) (n : Nat) (t : List Event) :
    pin_after level (List.replicate n Event.tick ++ t) = pin_after level t := by
  induction n with
  | zero => rfl
  | succ n ih => simpa [List.replicate_succ, pin_after] using ih

theorem pin_changes_tone_trace (period cycles : Nat) (level : Bool) :
    pin_changes level (tone_trace period cycles level) = cycles := by
  induction cycles generalizing level with
  | zero => rfl
  | succ c ih =>
    have h := ih (!level)
    simp only [tone_trace, pin_changes, pin_changes_replicate_tick_append, h]
    cases level <;> simp <;> omega

theorem pin_after_tone_trace (period cycles : Nat) (level : Bool) :
    pin_after level (tone_trace period cycles level)
      = (if cycles % 2 = 0 then level else !level) := by
  induction cycles generalizing level with
  | zero => rfl
  | succ c ih =>
    have h := ih (!level)
    simp only [tone_trace, pin_after, pin_after_replicate_tick_append, h]
    rcases Nat.mod_two_eq_zero_or_one c with hc | hc
    · have h2 : (c + 1) % 2 = 1 := by omega
      simp [hc, h2]
    · have h2 : (c + 1) % 2 = 0 := by omega
      simp [hc, h2]

theorem play_sound_BEEPER_eq_pin_after (period cycles : Nat) (b : Board) :
    (play_sound period cycles b).BEEPER
      = pin_after b.BEEPER (emitted b (play_sound period cycles b)) := by
  rw [emitted_play_sound, pin_after_tone_trace, play_sound_BEEPER]

/-! ## Lemmas on the arithmetic of play_freq -/

theorem play_freq_period_eq_none_iff (frequency : Nat) :
    play_freq_period frequency = none ↔ frequency / 8 = 0 := by
  unfold play_freq_period
  split <;> simp_all

theorem play_freq_cycles_eq_none_iff (frequency duration : Nat) :
    play_freq_cycles frequency duration = none ↔ frequency = 0 ∨ 50000 < frequency := by
  unfold play_freq_cycles
  by_cases h0 : frequency = 0
  · simp [h0]
  · by_cases h1 : 50000 / frequency = 0
    · have h2 : 50000 < frequency :=
        (Nat.div_eq_zero_iff (Nat.pos_of_ne_zero h0)).mp h1
      simp [h0, h1, h2]
    · have h2 : ¬ 50000 < frequency := by
        intro h
        exact h1 (Nat.div_eq_of_lt h)
      simp [h0, h1, h2]

theorem play_freq_eq_some_iff (frequency duration : Nat) (b r : Board) :
    play_freq frequency duration b = some r ↔
      ∃ p c, play_freq_period frequency = some p ∧
        play_freq_cycles frequency duration = some c ∧ r = play_sound p c b := by
  unfold play_freq
  cases hp : play_freq_period frequency with
  | none => simp
  | some p =>
    cases hc : play_freq_cycles frequency duration with
    | none => simp
    | some c =>
      simp only [play_freq_loop_eq_play_sound, Option.some.injEq]
      constructor
      · intro h
        exact ⟨p, c, rfl, rfl, h.symm⟩
      · rintro ⟨p2, c2, h1, h2, h3⟩
        subst h1 h2
        exact h3.symm

theorem play_freq_eq_bind (frequency duration : Nat) (b : Board) :
    play_freq frequency duration b =
      (play_freq_period frequency).bind fun p =>
        (play_freq_cycles frequency duration).map fun c => play_sound p c b := by
  unfold play_freq
  cases play_freq_period frequency with
  | none => rfl
  | some p =>
    cases play_freq_cycles frequency duration with
    | none => rfl
    | some c => simp [play_freq_loop_eq_play_sound]

theorem play_freq_isSome_iff (frequency duration : Nat) (b : Board) :
    (play_freq frequency duration b).isSome ↔ 8 ≤ frequency ∧ frequency ≤ 50000 := by
  have hp := play_freq_period_eq_none_iff frequency
  have hc := play_freq_cycles_eq_none_iff frequency duration
  rw [play_freq_eq_bind]
  cases hp2 : play_freq_period frequency with
  | none =>
    have := hp.mp hp2
    simp
    omega
  | some p =>
    cases hc2 : play_freq_cycles frequency duration with
    | none =>
      have := hc.mp hc2
      simp
      omega
    | some c =>
      have h1 : ¬ frequency / 8 = 0 := fun h => by
        rw [hp.mpr h] at hp2; cases hp2
      have h2 : ¬ (frequency = 0 ∨ 50000 < frequency) := fun h => by
        rw [hc.mpr h] at hc2; cases hc2
      simp
      omega

theorem long_to_uint_sub_two (q : Nat) (h2 : 2 ≤ q) (h : q ≤ 65537) :
    long_to_uint ((q : Int) - 2) = q - 2 := by
  unfold long_to_uint
  omega

theorem to_uint_of_lt (n : Nat) (h : n < 65536) : to_uint n = n := by
  unfold to_uint UINT_MOD
  omega

theorem period_quotient_bounds (frequency : Nat) (h8 : 8 ≤ frequency)
    (h16 : frequency ≤ 65535) :
    7 ≤ 57600 / (frequency / 8) ∧ 57600 / (frequency / 8) ≤ 57600 := by
  have hk1 : 0 < frequency / 8 := by omega
  have hk2 : frequency / 8 ≤ 8191 := by omega
  refine ⟨(Nat.le_div_iff_mul_le hk1).mpr (by omega), Nat.div_le_self _ _⟩

theorem play_freq_period_eq (frequency : Nat) (h8 : 8 ≤ frequency)
    (h16 : frequency ≤ 65535) :
    play_freq_period frequency = some (57600 / (frequency / 8) - 2) := by
  have hq := period_quotient_bounds frequency h8 h16
  have hk : ¬ frequency / 8 = 0 := by omega
  unfold play_freq_period
  rw [if_neg hk, long_to_uint_sub_two _ (by omega) (by omega)]

theorem play_freq_cycles_eq (frequency duration : Nat) (h1 : 1 ≤ frequency)
    (h2 : frequency ≤ 50000) :
    play_freq_cycles frequency duration
      = some (to_uint (to_uint (duration * 10) / (50000 / frequency) * 10)) := by
  have h0 : ¬ frequency = 0 := by omega
  have hk : ¬ 50000 / frequency = 0 := fun h =>
    absurd ((Nat.div_eq_zero_iff (by omega)).mp h) (by omega)
  unfold play_freq_cycles
  rw [if_neg h0, if_neg hk]

theorem spec_period_eq (frequency : Nat) :
    spec_period frequency = ((57600 / (frequency / 8) : Nat) : Int) - 2 := by
  unfold spec_period
  rw [Int.ofNat_tdiv, Int.ofNat_tdiv]
  rfl

theorem spec_cycles_eq (frequency duration : Nat) :
    spec_cycles frequency duration
      = ((duration * 10 / (50000 / frequency) * 10 : Nat) : Int) := by
  unfold spec_cycles
  rw [Int.ofNat_mul, Int.ofNat_tdiv, Int.ofNat_tdiv, Int.ofNat_mul]
  rfl

/-! ## The claims -/

/-- C1: for every period and every cycles, `play_sound(period, cycles)` toggles
the beeper pin exactly `cycles` times: the run writes the pin `cycles` times,
every write is the complement of the level the pin has at that moment (so the
level changes `cycles` times), and the pin ends at the level of the last
write, which is the entry level for an even `cycles` and its complement for an
odd one.  `play_sound(period, 0)` performs no toggle and leaves the pin (the
whole board) unchanged. -/
theorem play_sound_toggles_exactly_cycles (period cycles : Nat) (b : Board) :
    toggle_count (emitted b (play_sound period cycles b)) = cycles
    ∧ toggle_count (play_sound period cycles b).trace = toggle_count b.trace + cycles
    ∧ toggle_count (emitted b (play_sound period 0 b)) = 0
    ∧ play_sound period 0 b = b
    ∧ emitted b (play_sound period cycles b) = tone_trace period cycles b.BEEPER
    ∧ pin_changes b.BEEPER (emitted b (play_sound period cycles b)) = cycles
    ∧ (play_sound period cycles b).BEEPER
        = pin_after b.BEEPER (emitted b (play_sound period cycles b))
    ∧ (play_sound period cycles b).BEEPER
        = (if cycles % 2 = 0 then b.BEEPER else !b.BEEPER) := by
  refine ⟨?_, ?_, ?_, rfl, emitted_play_sound period cycles b, ?_,
    play_sound_BEEPER_eq_pin_after period cycles b, play_sound_BEEPER period cycles b⟩
  · rw [emitted_play_sound, toggle_count_tone_trace]
  · rw [play_sound_trace, toggle_count_append, toggle_count_tone_trace]
  · rw [emitted_play_sound, toggle_count_tone_trace]
  · rw [emitted_play_sound, pin_changes_tone_trace]

/-- C4: `play_freq(523, 500)` computes `period = 884` and `cycles = 520`, and
its run is 520 toggles of the pin, each followed by 884 iterations of the
delay loop. -/
theorem play_freq_523_500 (b : Board) :
    play_freq_period 523 = some 884
    ∧ play_freq_cycles 523 500 = some 520
    ∧ ∃ r, play_freq 523 500 b = some r
        ∧ emitted b r = tone_trace 884 520 b.BEEPER
        ∧ toggle_count (emitted b r) = 520
        ∧ tick_count (emitted b r) = 884 * 520 := by
  have hp : play_freq_period 523 = some 884 := by decide
  have hc : play_freq_cycles 523 500 = some 520 := by decide
  refine ⟨hp, hc, play_sound 884 520 b, ?_, ?_, ?_, ?_⟩
  · exact (play_freq_eq_some_iff 523 500 b _).mpr ⟨884, 520, hp, hc, rfl⟩
  · exact emitted_play_sound 884 520 b
  · rw [emitted_play_sound, toggle_count_tone_trace]
  · rw [emitted_play_sound, tick_count_tone_trace]

/-- C5: `play_freq(440, 200)` computes `period = 1045` and `cycles = 170`, and
its run is 170 toggles of the pin, each followed by 1045 iterations of the
delay loop. -/
theorem play_freq_440_200 (b : Board) :
    play_freq_period 440 = some 1045
    ∧ play_freq_cycles 440 200 = some 170
    ∧ ∃ r, play_freq 440 200 b = some r
        ∧ emitted b r = tone_trace 1045 170 b.BEEPER
        ∧ toggle_count (emitted b r) = 170
        ∧ tick_count (emitted b r) = 1045 * 170 := by
  have hp : play_freq_period 440 = some 1045 := by decide
  have hc : play_freq_cycles 440 200 = some 170 := by decide
  refine ⟨hp, hc, play_sound 1045 170 b, ?_, ?_, ?_, ?_⟩
  · exact (play_freq_eq_some_iff 440 200 b _).mpr ⟨1045, 170, hp, hc, rfl⟩
  · exact emitted_play_sound 1045 170 b
  · rw [emitted_play_sound, toggle_count_tone_trace]
  · rw [emitted_play_sound, tick_count_tone_trace]

/-- C6: whenever the arithmetic of `play_freq(frequency, duration)` is defined
and yields the period `p` and the cycle count `c`, the run of `play_freq` is
the run of `play_sound(p, c)`: the same trace of toggles and delay iterations
and the same final pin level. -/
theorem play_freq_runs_as_play_sound (frequency duration p c : Nat) (b : Board)
    (hp : play_freq_period frequency = some p)
    (hc : play_freq_cycles frequency duration = some c) :
    play_freq frequency duration b = some (play_sound p c b) :=
  (play_freq_eq_some_iff frequency duration b _).mpr ⟨p, c, hp, hc, rfl⟩

/-- Witness of C6 at `play_freq(523, 500)` from a low pin. -/
theorem play_freq_runs_as_play_sound_witness :
    play_freq_period 523 = some 884
    ∧ play_freq_cycles 523 500 = some 520
    ∧ play_freq 523 500 ⟨false, []⟩ = some (play_sound 884 520 ⟨false, []⟩) :=
  ⟨by decide, by decide,
    play_freq_runs_as_play_sound 523 500 884 520 ⟨false, []⟩ (by decide) (by decide)⟩

/-- C7: the period formula of `play_freq` divides by zero exactly when
`frequency < 8`: it has no result exactly when its divisor `frequency / 8` is
zero, and that divisor is zero exactly for the frequencies below 8. -/
theorem period_divides_by_zero_iff_lt_8 (frequency : Nat) :
    (play_freq_period frequency = none ↔ frequency < 8)
    ∧ (frequency / 8 = 0 ↔ frequency < 8) := by
  have h : frequency / 8 = 0 ↔ frequency < 8 := by omega
  exact ⟨(play_freq_period_eq_none_iff frequency).trans h, h⟩

/-- C8: `play_sound` runs exactly `period` iterations of the delay loop after
each toggle, `period * cycles` in total; `play_sound(0, cycles)` still toggles
the pin `cycles` times and runs no delay iteration. -/
theorem play_sound_delay_iterations (period cycles : Nat) (b : Board) :
    emitted b (play_sound period cycles b) = tone_trace period cycles b.BEEPER
    ∧ tick_count (emitted b (play_sound period cycles b)) = period * cycles
    ∧ toggle_count (emitted b (play_sound 0 cycles b)) = cycles
    ∧ tick_count (emitted b (play_sound 0 cycles b)) = 0 := by
  refine ⟨emitted_play_sound period cycles b, ?_, ?_, ?_⟩
  · rw [emitted_play_sound, tick_count_tone_trace]
  · rw [emitted_play_sound, toggle_count_tone_trace]
  · rw [emitted_play_sound, tone_trace_zero_period]

/-- C2, evaluated at `play_freq(10000, 6000)`: the period stored is the value
of the period formula, 44, but the cycles stored is 54464 while the cycles
formula over unbounded integers gives 120000. -/
theorem play_freq_cycles_differs_from_formula_at_10000_6000 :
    play_freq_period 10000 = some 44
    ∧ spec_period 10000 = 44
    ∧ play_freq_cycles 10000 6000 = some 54464
    ∧ spec_cycles 10000 6000 = 120000 := by
  refine ⟨by decide, by decide, by decide, by decide⟩

/-- C3, evaluated at `play_freq(10000, 6000)`: the last operation of the cycles
calculation, the quotient 12000 times 10, has the value 120000, which is
outside the range 0..65535 of a 16-bit unsigned integer. -/
theorem play_freq_step_exceeds_uint_at_10000_6000 :
    play_freq_steps 10000 6000 = some [1250, 46, 44, 60000, 5, 12000, 120000]
    ∧ ¬ (∀ steps, play_freq_steps 10000 6000 = some steps →
          ∀ v ∈ steps, 0 ≤ v ∧ v ≤ 65535) := by
  have h : play_freq_steps 10000 6000 = some [1250, 46, 44, 60000, 5, 12000, 120000] := by
    decide
  refine ⟨h, fun hall => ?_⟩
  have h2 := hall _ h 120000 (by simp)
  omega

/-- C9: the number of toggles and the number of delay iterations of a run of
`play_sound` and of a run of `play_freq` are the same for any two runs with the
same arguments, whatever the two boards (pin level and earlier trace) they
start from. -/
theorem counts_depend_only_on_arguments (x y : Nat) (b1 b2 : Board) :
    toggle_count (emitted b1 (play_sound x y b1))
      = toggle_count (emitted b2 (play_sound x y b2))
    ∧ tick_count (emitted b1 (play_sound x y b1))
      = tick_count (emitted b2 (play_sound x y b2))
    ∧ (play_freq x y b1).map (fun r => toggle_count (emitted b1 r))
      = (play_freq x y b2).map (fun r => toggle_count (emitted b2 r))
    ∧ (play_freq x y b1).map (fun r => tick_count (emitted b1 r))
      = (play_freq x y b2).map (fun r => tick_count (emitted b2 r)) := by
  refine ⟨?_, ?_, ?_, ?_⟩
  · simp only [emitted_play_sound, toggle_count_tone_trace]
  · simp only [emitted_play_sound, tick_count_tone_trace]
  · rw [play_freq_eq_bind, play_freq_eq_bind]
    cases play_freq_period x with
    | none => rfl
    | some p =>
      cases play_freq_cycles x y with
      | none => rfl
      | some c => simp [emitted_play_sound, toggle_count_tone_trace]
  · rw [play_freq_eq_bind, play_freq_eq_bind]
    cases play_freq_period x with
    | none => rfl
    | some p =>
      cases play_freq_cycles x y with
      | none => rfl
      | some c => simp [emitted_play_sound, tick_count_tone_trace]

/-- C10 as stated fails at frequency 0: the cycles formula divides by zero
there (in `50000 / frequency`) although 0 is not above 50000. -/
theorem cycles_divides_by_zero_at_frequency_0 :
    play_freq_cycles 0 500 = none ∧ ¬ ((50000 : Nat) < 0) := by
  decide

/-- C10, amended: the cycles formula of `play_freq` divides by zero exactly
when `frequency = 0` or `frequency > 50000`; the arithmetic of `play_freq` is
free of division by zero, so that `play_freq` runs, exactly when
`8 <= frequency <= 50000`, for every duration. -/
theorem play_freq_division_by_zero_free_iff (frequency duration : Nat) (b : Board) :
    (play_freq_cycles frequency duration = none ↔ frequency = 0 ∨ 50000 < frequency)
    ∧ ((play_freq_period frequency ≠ none ∧ play_freq_cycles frequency duration ≠ none)
        ↔ 8 ≤ frequency ∧ frequency ≤ 50000)
    ∧ ((play_freq frequency duration b).isSome ↔ 8 ≤ frequency ∧ frequency ≤ 50000) := by
  refine ⟨play_freq_cycles_eq_none_iff frequency duration, ?_,
    play_freq_isSome_iff frequency duration b⟩
  rw [Ne, Ne, play_freq_period_eq_none_iff, play_freq_cycles_eq_none_iff]
  omega

/-- C11: for every frequency in 8..5000 and every duration in 0..6553 no step
of the period or cycles calculation of `play_freq` leaves 0..65535, and the
stored period and cycles are the values of the two formulas over unbounded
integers with truncating division. -/
theorem play_freq_exact_up_to_5000 (frequency duration : Nat)
    (h8 : 8 ≤ frequency) (h5000 : frequency ≤ 5000) (hd : duration ≤ 6553) :
    (∃ steps, play_freq_steps frequency duration = some steps
        ∧ ∀ v ∈ steps, 0 ≤ v ∧ v ≤ 65535)
    ∧ ∃ p c, play_freq_period frequency = some p
        ∧ play_freq_cycles frequency duration = some c
        ∧ (p : Int) = spec_period frequency
        ∧ (c : Int) = spec_cycles frequency duration := by
  have hq := period_quotient_bounds frequency h8 (by omega)
  have hk : ¬ frequency / 8 = 0 := by omega
  have hfpos : 0 < frequency := by omega
  have hm10 : 10 ≤ 50000 / frequency := (Nat.le_div_iff_mul_le hfpos).mpr (by omega)
  have hm : ¬ 50000 / frequency = 0 := by omega
  have hmle : 50000 / frequency ≤ 50000 := Nat.div_le_self _ _
  have ha : to_uint (duration * 10) = duration * 10 := to_uint_of_lt _ (by omega)
  have hr : duration * 10 / (50000 / frequency) ≤ 6553 := by
    have h1 : 6554 * 10 ≤ 6554 * (50000 / frequency) := Nat.mul_le_mul_left _ hm10
    have h2 : duration * 10 / (50000 / frequency) < 6554 :=
      (Nat.div_lt_iff_lt_mul (by omega)).mpr (by omega)
    omega
  have hc : to_uint (duration * 10 / (50000 / frequency) * 10)
      = duration * 10 / (50000 / frequency) * 10 := to_uint_of_lt _ (by omega)
  constructor
  · unfold play_freq_steps
    rw [if_neg hk, if_neg hm, ha]
    refine ⟨_, rfl, ?_⟩
    intro v hv
    generalize hqe : 57600 / (frequency / 8) = q at hq hv
    generalize hme : 50000 / frequency = m at hm10 hmle hr hv
    generalize hre : duration * 10 / m = r at hr hv
    simp only [List.mem_cons, List.mem_singleton, List.not_mem_nil, or_false] at hv
    rcases hv with rfl | rfl | rfl | rfl | rfl | rfl | rfl <;> omega
  · refine ⟨_, _, play_freq_period_eq frequency h8 (by omega),
      play_freq_cycles_eq frequency duration (by omega) (by omega), ?_, ?_⟩
    · rw [spec_period_eq]
      omega
    · rw [spec_cycles_eq, ha, hc]

/-- Witness of C11 at `play_freq(523, 500)`. -/
theorem play_freq_exact_up_to_5000_witness :
    (8 ≤ 523 ∧ 523 ≤ 5000 ∧ 500 ≤ 6553)
    ∧ (∃ steps, play_freq_steps 523 500 = some steps
        ∧ ∀ v ∈ steps, 0 ≤ v ∧ v ≤ 65535)
    ∧ ∃ p c, play_freq_period 523 = some p
        ∧ play_freq_cycles 523 500 = some c
        ∧ (p : Int) = spec_period 523
        ∧ (c : Int) = spec_cycles 523 500 :=
  ⟨by decide, play_freq_exact_up_to_5000 523 500 (by decide) (by decide) (by decide)⟩

/-- C12: for every frequency in 8..65535 the period computation
`57600 / (frequency / 8) - 2` neither underflows nor wraps (the quotient is at
least 2 and the stored period is the quotient minus 2 over the integers), and
the period lies between 5 and 57598. -/
theorem play_freq_period_bounds (frequency : Nat)
    (h8 : 8 ≤ frequency) (h16 : frequency ≤ 65535) :
    ∃ p, play_freq_period frequency = some p
      ∧ 2 ≤ 57600 / (frequency / 8)
      ∧ (p : Int) = ((57600 / (frequency / 8) : Nat) : Int) - 2
      ∧ (p : Int) = spec_period frequency
      ∧ 5 ≤ p ∧ p ≤ 57598 := by
  have hq := period_quotient_bounds frequency h8 h16
  refine ⟨_, play_freq_period_eq frequency h8 h16, by omega, by omega, ?_, by omega, by omega⟩
  rw [spec_period_eq]
  omega

/-- Witness of C12 at the highest 16-bit frequency, where the period is 5. -/
theorem play_freq_period_bounds_witness :
    (8 ≤ 65535 ∧ 65535 ≤ 65535)
    ∧ ∃ p, play_freq_period 65535 = some p
      ∧ 2 ≤ 57600 / (65535 / 8)
      ∧ (p : Int) = ((57600 / (65535 / 8) : Nat) : Int) - 2
      ∧ (p : Int) = spec_period 65535
      ∧ 5 ≤ p ∧ p ≤ 57598 :=
  ⟨by decide, play_freq_period_bounds 65535 (by decide) (by decide)⟩

/-- C13: for every frequency in 8..50000 and every duration the cycles value
`play_freq` stores (after any 16-bit wraparound) is even, so `play_freq` runs
and leaves the beeper pin at the level it had on entry. -/
theorem play_freq_cycles_even (frequency duration : Nat) (b : Board)
    (h8 : 8 ≤ frequency) (h50000 : frequency ≤ 50000) :
    ∃ c r, play_freq_cycles frequency duration = some c
      ∧ c % 2 = 0
      ∧ play_freq frequency duration b = some r
      ∧ toggle_count (emitted b r) = c
      ∧ r.BEEPER = b.BEEPER := by
  have hp := play_freq_period_eq frequency h8 (by omega)
  have hc := play_freq_cycles_eq frequency duration (by omega) h50000
  have heven : to_uint (to_uint (duration * 10) / (50000 / frequency) * 10) % 2 = 0 := by
    generalize to_uint (duration * 10) / (50000 / frequency) = r
    unfold to_uint UINT_MOD
    omega
  refine ⟨_, _, hc, heven,
    (play_freq_eq_some_iff frequency duration b _).mpr ⟨_, _, hp, hc, rfl⟩, ?_, ?_⟩
  · rw [emitted_play_sound, toggle_count_tone_trace]
  · rw [play_sound_BEEPER, if_pos heven]

/-- Witness of C13 at `play_freq(523, 500)` from a high pin. -/
theorem play_freq_cycles_even_witness :
    (8 ≤ 523 ∧ 523 ≤ 50000)
    ∧ ∃ c r, play_freq_cycles 523 500 = some c
      ∧ c % 2 = 0
      ∧ play_freq 523 500 ⟨true, []⟩ = some r
      ∧ toggle_count (emitted ⟨true, []⟩ r) = c
      ∧ r.BEEPER = true :=
  ⟨by decide, play_freq_cycles_even 523 500 ⟨true, []⟩ (by decide) (by decide)⟩

/-- C14: for every frequency in 440..10000 and every duration in 20..6000 the
16-bit cycles value `play_freq` stores is not zero, so `play_freq` toggles the
pin at least once: the run begins by writing the complement of the entry
level to the pin, it is `cycles` toggles of alternating level each followed by
`period` (at least 5) delay iterations, and the level of the pin changes
`cycles` times, at least once. -/
theorem play_freq_cycles_nonzero (frequency duration : Nat) (b : Board)
    (hf1 : 440 ≤ frequency) (hf2 : frequency ≤ 10000)
    (hd1 : 20 ≤ duration) (hd2 : duration ≤ 6000) :
    ∃ c r, play_freq_cycles frequency duration = some c
      ∧ c ≠ 0
      ∧ play_freq frequency duration b = some r
      ∧ toggle_count (emitted b r) = c
      ∧ 1 ≤ toggle_count (emitted b r)
      ∧ (∃ p, play_freq_period frequency = some p ∧ 5 ≤ p
          ∧ emitted b r = tone_trace p c b.BEEPER)
      ∧ (emitted b r).head? = some (Event.toggle (!b.BEEPER))
      ∧ pin_changes b.BEEPER (emitted b r) = c
      ∧ 1 ≤ pin_changes b.BEEPER (emitted b r)
      ∧ r.BEEPER = pin_after b.BEEPER (emitted b r) := by
  have hp := play_freq_period_eq frequency (by omega) (by omega)
  have hq := period_quotient_bounds frequency (by omega) (by omega)
  have hc := play_freq_cycles_eq frequency duration (by omega) (by omega)
  have hfpos : 0 < frequency := by omega
  have hm5 : 5 ≤ 50000 / frequency := (Nat.le_div_iff_mul_le hfpos).mpr (by omega)
  have hm113 : 50000 / frequency < 114 := (Nat.div_lt_iff_lt_mul hfpos).mpr (by omega)
  have ha : to_uint (duration * 10) = duration * 10 := to_uint_of_lt _ (by omega)
  have hr1 : 1 ≤ duration * 10 / (50000 / frequency) :=
    (Nat.le_div_iff_mul_le (by omega)).mpr (by omega)
  have hr2 : duration * 10 / (50000 / frequency) < 12001 := by
    have h1 : 12001 * 5 ≤ 12001 * (50000 / frequency) := Nat.mul_le_mul_left _ hm5
    exact (Nat.div_lt_iff_lt_mul (by omega)).mpr (by omega)
  have hne : to_uint (to_uint (duration * 10) / (50000 / frequency) * 10) ≠ 0 := by
    rw [ha]
    generalize duration * 10 / (50000 / frequency) = r at hr1 hr2
    unfold to_uint UINT_MOD
    omega
  generalize to_uint (to_uint (duration * 10) / (50000 / frequency) * 10) = c at hc hne
  generalize hpe : 57600 / (frequency / 8) - 2 = p at hp
  have hp5 : 5 ≤ p := by omega
  have hpos : 1 ≤ c := Nat.pos_of_ne_zero hne
  have he := emitted_play_sound p c b
  refine ⟨c, play_sound p c b, hc, hne,
    (play_freq_eq_some_iff frequency duration b _).mpr ⟨p, c, hp, hc, rfl⟩,
    ?_, ?_, ⟨p, hp, hp5, he⟩, ?_, ?_, ?_, play_sound_BEEPER_eq_pin_after p c b⟩
  · rw [he, toggle_count_tone_trace]
  · rw [he, toggle_count_tone_trace]
    exact hpos
  · rw [he]
    cases c with
    | zero => exact absurd rfl hne
    | succ n => rfl
  · rw [he, pin_changes_tone_trace]
  · rw [he, pin_changes_tone_trace]
    exact hpos

/-- Witness of C14 at `play_freq(10000, 6000)`, where the cycles value wraps. -/
theorem play_freq_cycles_nonzero_witness :
    (440 ≤ 10000 ∧ 10000 ≤ 10000 ∧ 20 ≤ 6000 ∧ 6000 ≤ 6000)
    ∧ ∃ c r, play_freq_cycles 10000 6000 = some c
      ∧ c ≠ 0
      ∧ play_freq 10000 6000 ⟨false, []⟩ = some r
      ∧ toggle_count (emitted ⟨false, []⟩ r) = c
      ∧ 1 ≤ toggle_count (emitted ⟨false, []⟩ r)
      ∧ (∃ p, play_freq_period 10000 = some p ∧ 5 ≤ p
          ∧ emitted ⟨false, []⟩ r = tone_trace p c false)
      ∧ (emitted ⟨false, []⟩ r).head? = some (Event.toggle true)
      ∧ pin_changes false (emitted ⟨false, []⟩ r) = c
      ∧ 1 ≤ pin_changes false (emitted ⟨false, []⟩ r)
      ∧ r.BEEPER = pin_after false (emitted ⟨false, []⟩ r) :=
  ⟨by decide, play_freq_cycles_nonzero 10000 6000 ⟨false, []⟩
    (by decide) (by decide) (by decide) (by decide)⟩

/-- C15: the period `play_freq` computes does not increase with the frequency:
for all frequencies `f1 <= f2` in 8..65535 the period of `f2` is at most the
period of `f1`. -/
theorem play_freq_period_antitone (f1 f2 : Nat)
    (h8 : 8 ≤ f1) (h12 : f1 ≤ f2) (h16 : f2 ≤ 65535) :
    ∃ p1 p2, play_freq_period f1 = some p1
      ∧ play_freq_period f2 = some p2
      ∧ p2 ≤ p1 := by
  have hk : f1 / 8 ≤ f2 / 8 := Nat.div_le_div_right h12
  have hq : 57600 / (f2 / 8) ≤ 57600 / (f1 / 8) :=
    Nat.div_le_div_left hk (by omega)
  refine ⟨_, _, play_freq_period_eq f1 h8 (by omega),
    play_freq_period_eq f2 (by omega) h16, ?_⟩
  omega

/-- Witness of C15 at the frequencies 440 and 523 (periods 1045 and 884). -/
theorem play_freq_period_antitone_witness :
    (8 ≤ 440 ∧ 440 ≤ 523 ∧ 523 ≤ 65535)
    ∧ ∃ p1 p2, play_freq_period 440 = some p1
      ∧ play_freq_period 523 = some p2
      ∧ p2 ≤ p1 :=
  ⟨by decide, play_freq_period_antitone 440 523 (by decide) (by decide) (by decide)⟩

end MusicNotes
